import Mathlib

/-!
Verification development for the `streamdiff` repository (`src/app.py`).

The file shallowly embeds the two logic functions of the repository,
`is_line_similar` and `apply_diff_logic_smart`, as executable Lean
definitions, and settles the frozen claims about them.

Embedding conventions:
* Python strings are Lean `String`s; string indexing/slicing is done on the
  underlying `List Char`.
* Python line splitting (`str.splitlines`) is modelled for the newline
  terminator `'\n'` (the only terminator produced and consumed by the
  program's own data path).
* `difflib.SequenceMatcher` (stdlib) is embedded by its documented
  Ratcliff-Obershelp algorithm: repeatedly take the longest matching block
  (first one in scan order on ties, exactly as `find_longest_match` does) and
  recurse on both sides.  The `autojunk` heuristic only activates for
  second arguments of length ≥ 200 and is inert on the b-junk-free case
  modelled here.
* The float threshold `0.8` of `ratio() >= ratio_threshold` is modelled as
  the exact rational 4/5; the comparison agrees with the float one for all
  strings of realistic length.
-/

/-- Python `str` whitespace characters (ASCII), as used by `str.strip()`. -/
def isPySpace (c : Char) : Bool :=
  c = ' ' || c = '\t' || c = '\n' || c = '\x0d' || c = Char.ofNat 11 || c = Char.ofNat 12

/-- Python `s.strip()`: remove leading and trailing whitespace. -/
def pyStrip (s : String) : String :=
  ⟨((s.data.dropWhile isPySpace).reverse.dropWhile isPySpace).reverse⟩

/-- Python `s.rstrip('\n')`: remove trailing newline characters. -/
def rstripNL (s : String) : String :=
  ⟨(s.data.reverse.dropWhile (fun c => c = '\n')).reverse⟩

/-- Python `s.startswith(p)`. -/
def pyStartsWith (s p : String) : Bool :=
  decide (s.data.take p.data.length = p.data)

/-- Helper for `splitLines` / `splitLinesKeep`: walk the characters, cutting
at `'\n'`; `keep` retains the terminator (Python `keepends=True`). -/
def splitLinesGo (keep : Bool) : List Char → List Char → List String
  | [], acc => [⟨acc.reverse⟩]
  | c :: rest, acc =>
    if c = '\n' then
      (⟨((if keep then c :: acc else acc)).reverse⟩) ::
        (if rest.isEmpty then [] else splitLinesGo keep rest [])
    else splitLinesGo keep rest (c :: acc)

/-- Python `s.splitlines()` (newline terminator). -/
def splitLines (s : String) : List String :=
  if s.data.isEmpty then [] else splitLinesGo false s.data []

/-- Python `s.splitlines(keepends=True)` (newline terminator). -/
def splitLinesKeep (s : String) : List String :=
  if s.data.isEmpty then [] else splitLinesGo true s.data []

/-! ### difflib.SequenceMatcher (Ratcliff-Obershelp) -/

/-- Whether positions `i` of `a` and `j` of `b` hold the same character. -/
def sameAt (a b : List Char) (i j : Nat) : Bool :=
  match a.get? i, b.get? j with
  | some x, some y => x = y
  | _, _ => false

/-- Length of the maximal common run of equal characters ending at
positions `(i, j)` (the `j2len` chain value of `find_longest_match`). -/
def runEnd (a b : List Char) : Nat → Nat → Nat
  | 0, j => if sameAt a b 0 j then 1 else 0
  | i + 1, j =>
    if sameAt a b (i + 1) j then
      (match j with
       | 0 => 1
       | j' + 1 => runEnd a b i j' + 1)
    else 0

/-- `SequenceMatcher.find_longest_match` on the whole sequences, junk-free
case: scan all cells in the order of the Python loops, keeping the first
block that is strictly longer than the best so far.  Returns
`(besti, bestj, bestsize)`. -/
def findLongestBlock (a b : List Char) : Nat × Nat × Nat :=
  (List.range a.length).foldl
    (fun best i =>
      (List.range b.length).foldl
        (fun best j =>
          let k := runEnd a b i j
          if best.2.2 < k then (i + 1 - k, j + 1 - k, k) else best)
        best)
    (0, 0, 0)

/-- Total size of all matching blocks (the `matches` count summed by
`SequenceMatcher.ratio`), with explicit recursion fuel.  Each recursive
call strictly shrinks the first sequence, so fuel `a.length` suffices. -/
def matchTotalGo : Nat → List Char → List Char → Nat
  | 0, _, _ => 0
  | fuel + 1, a, b =>
    let blk := findLongestBlock a b
    if blk.2.2 = 0 then 0
    else
      matchTotalGo fuel (a.take blk.1) (b.take blk.2.1) + blk.2.2 +
        matchTotalGo fuel (a.drop (blk.1 + blk.2.2)) (b.drop (blk.2.1 + blk.2.2))

/-- Total matched characters `M` of `SequenceMatcher(None, a, b)`. -/
def matchTotal (a b : List Char) : Nat :=
  matchTotalGo a.length a b

/-- `SequenceMatcher.ratio()`: `2*M / (len(a)+len(b))`, and `1` when both
sequences are empty (difflib's `_calculate_ratio`). -/
def smRatio (a b : List Char) : ℚ :=
  if a.length + b.length = 0 then 1
  else (2 * (matchTotal a b : ℚ)) / ((a.length : ℚ) + (b.length : ℚ))

/-- The similarity threshold of `is_line_similar` (Python default `0.8`). -/
def ratio_threshold : ℚ := 4 / 5

/-- `is_line_similar(line1, line2)` from `src/app.py`:
empty-after-strip handling, then `SequenceMatcher` ratio on the stripped
strings against the threshold.  The final comparison
`matcher.ratio() >= ratio_threshold`, i.e. `2*M/(la+lb) ≥ 4/5`, is embedded
by cross-multiplying with the positive denominators
(`5 * (2*M) ≥ 4 * (la+lb)`); `is_line_similar_iff_ratio` proves this equal
to the threshold test on `smRatio`. -/
def is_line_similar (line1 line2 : String) : Bool :=
  if (pyStrip line1).data.isEmpty && (pyStrip line2).data.isEmpty then
    true
  else if (pyStrip line1).data.isEmpty || (pyStrip line2).data.isEmpty then
    false
  else
    decide (5 * (2 * matchTotal (pyStrip line1).data (pyStrip line2).data) ≥
      4 * ((pyStrip line1).data.length + (pyStrip line2).data.length))

/-! ### Diff parsing (`apply_diff_logic_smart`, lines 31-62) -/

/-- One raw hunk as collected by the parsing loop: its `@@` header line and
the body lines gathered until the next header. -/
structure RawHunk where
  header : String
  lines : List String
  deriving DecidableEq, Repr

/-- The four integers of a well-formed hunk header
`@@ -<start>[,<count>] +<start>[,<count>] @@`, counts defaulting to 1. -/
structure ParsedHeader where
  origStart : Nat
  origCount : Nat
  modStart : Nat
  modCount : Nat
  deriving DecidableEq, Repr

/-- Greedy run of one or more ASCII digits, returning its value and the
remaining characters (the `(\d+)` groups of the header regex). -/
def digits1 : List Char → Option (Nat × List Char) :=
  fun cs =>
    let ds := cs.takeWhile (fun c => c.isDigit)
    if ds.isEmpty then none
    else some (ds.foldl (fun n c => 10 * n + (c.toNat - 48)) 0, cs.drop ds.length)

/-- The optional `(?:,(\d+))?` group followed by the next mandatory
character: consume `,<digits>` if present, else default the count to 1. -/
def optCount : List Char → Option (Nat × List Char) :=
  fun cs =>
    match cs with
    | ',' :: rest => digits1 rest
    | _ => some (1, cs)

/-- `re.match(r"@@ -(\d+)(?:,(\d+))? \+(\d+)(?:,(\d+))? @@.*", header)`
(line 70 of `src/app.py`), with the count defaulting of lines 75 and 77
folded in.  Trailing text after the closing `@@` is ignored. -/
def parseHunkHeader (s : String) : Option ParsedHeader :=
  match s.data with
  | '@' :: '@' :: ' ' :: '-' :: rest =>
    match digits1 rest with
    | none => none
    | some (n1, r1) =>
      match optCount r1 with
      | none => none
      | some (c1, r2) =>
        match r2 with
        | ' ' :: '+' :: r3 =>
          match digits1 r3 with
          | none => none
          | some (n2, r4) =>
            match optCount r4 with
            | none => none
            | some (c2, r5) =>
              match r5 with
              | ' ' :: '@' :: '@' :: _ => some ⟨n1, c1, n2, c2⟩
              | _ => none
        | _ => none
  | _ => none

/-- Accumulator of the parsing loop: recorded `+++ b/` filename, closed
hunks, and the currently open hunk. -/
structure ParseAcc where
  targetFilename : Option String
  hunks : List RawHunk
  current : Option RawHunk
  deriving DecidableEq, Repr

/-- Closing the currently open hunk: `if current_hunk:
hunks.append(current_hunk)` (lines 50-51 and 58-59). -/
def closeHunk : Option RawHunk → List RawHunk
  | some h => [h]
  | none => []

/-- One iteration of the parsing loop (lines 40-56): `+++ b/` lines record
the target filename (the `filename` variable they also touch is
reporting-only and never read by the returned values), `@@` lines close the
open hunk and open a new one, other lines extend the open hunk and are
discarded before the first header. -/
def parseStep (acc : ParseAcc) (line : String) : ParseAcc :=
  if pyStartsWith line "+++ b/" then
    { acc with targetFilename := some (line.drop 6) }
  else if pyStartsWith line "@@" then
    { acc with
      hunks := acc.hunks ++ closeHunk acc.current,
      current := some ⟨line, []⟩ }
  else
    match acc.current with
    | some h => { acc with current := some { h with lines := h.lines ++ [line] } }
    | none => acc

/-- The hunks produced by the parsing loop over the diff's lines,
including the final close of the open hunk (lines 58-59). -/
def diffHunks (ls : List String) : List RawHunk :=
  let acc := ls.foldl parseStep ⟨none, [], none⟩
  acc.hunks ++ closeHunk acc.current

/-! ### Hunk application (`apply_diff_logic_smart`, lines 64-122) -/

/-- The mutable state of the application loop: the original-line cursor
`original_line_index`, the output lines `new_lines`, and the collected
`mismatches_warnings`. -/
structure AppState where
  idx : Nat
  out : List String
  warns : List String
  deriving DecidableEq, Repr

/-- A single-quote character, used inside the warning message f-strings. -/
def sglq : String := String.singleton (Char.ofNat 39)

/-- The context-mismatch warning of line 98; `startM1` is the 0-indexed
`original_start_line`, `k` the `hunk_lines_index`. -/
def ctxWarnMsg (line : String) (startM1 : Int) (k : Nat) : String :=
  "Context line mismatch, using diff line anyway: " ++ sglq ++ pyStrip line ++ sglq ++
    " (Expected near line " ++ toString (startM1 + 1 + (k : Int)) ++
    "). Potential patching issue."

/-- The removal-mismatch warning of line 107. -/
def remWarnMsg (line : String) (startM1 : Int) (k : Nat) : String :=
  "Removal line context mismatch, skipping original line but applying removal from diff: " ++
    sglq ++ pyStrip line ++ sglq ++ " (Expected near line " ++
    toString (startM1 + 1 + (k : Int)) ++ "). Potential patching issue."

/-- One iteration of the inner hunk-line loop (lines 87-110): context lines
copy the original on a fuzzy match and otherwise warn and emit the diff
text without advancing; additions emit the diff text; removals always
advance and warn on an exact (newline-stripped) mismatch; any other line is
ignored. -/
def processDiffLine (orig : List String) (startM1 : Int) (k : Nat) (line : String)
    (s : AppState) : AppState :=
  if pyStartsWith line " " then
    if s.idx < orig.length ∧
        is_line_similar (rstripNL (orig.getD s.idx "")) (rstripNL (line.drop 1)) = true then
      { s with out := s.out ++ [orig.getD s.idx ""], idx := s.idx + 1 }
    else
      { s with warns := s.warns ++ [ctxWarnMsg line startM1 k],
               out := s.out ++ [line.drop 1 ++ "\n"] }
  else if pyStartsWith line "+" then
    { s with out := s.out ++ [line.drop 1 ++ "\n"] }
  else if pyStartsWith line "-" then
    let s1 :=
      if s.idx < orig.length ∧ rstripNL (orig.getD s.idx "") ≠ rstripNL (line.drop 1) then
        { s with warns := s.warns ++ [remWarnMsg line startM1 k] }
      else s
    { s1 with idx := s1.idx + 1 }
  else s

/-- The inner hunk-line loop, threading `hunk_lines_index`. -/
def processHunkLines (orig : List String) (startM1 : Int) :
    Nat → List String → AppState → AppState
  | _, [], s => s
  | k, l :: ls, s => processHunkLines orig startM1 (k + 1) ls (processDiffLine orig startM1 k l s)

/-- The copy-through loop before a hunk (lines 82-84):
`while original_line_index < original_start_line and original_line_index <
len(original_lines)`, in closed form. -/
def copyBefore (orig : List String) (startM1 : Int) (s : AppState) : AppState :=
  let stop := min (Int.toNat startM1) orig.length
  { s with out := s.out ++ ((orig.drop s.idx).take (stop - s.idx)), idx := max s.idx stop }

/-- The flush loop of lines 113-115, in closed form.  In the source this
loop sits inside the per-hunk `for` loop, so it runs after every hunk. -/
def flushRemaining (orig : List String) (s : AppState) : AppState :=
  { s with out := s.out ++ orig.drop s.idx, idx := max s.idx orig.length }

/-- One iteration of the per-hunk loop body after a successful header
parse (lines 74-115), including the per-hunk flush. -/
def applyHunk (orig : List String) (ph : ParsedHeader) (lines : List String)
    (s : AppState) : AppState :=
  let startM1 : Int := (ph.origStart : Int) - 1
  flushRemaining orig (processHunkLines orig startM1 0 lines (copyBefore orig startM1 s))

/-- The per-hunk loop (lines 69-115).  A header that fails the regex causes
an immediate return of the whole function (lines 71-72), modelled as
`Except.error` carrying the returned warning message. -/
def applyHunksLoop (orig : List String) : List RawHunk → AppState → Except String AppState
  | [], s => Except.ok s
  | h :: hs, s =>
    match parseHunkHeader h.header with
    | none =>
      Except.error ("Warning: Invalid hunk header: " ++ sglq ++ h.header ++ sglq ++ ". Skipping hunk.")
    | some ph => applyHunksLoop orig hs (applyHunk orig ph h.lines s)

/-- The value returned by `apply_diff_logic_smart`.  The Python function
returns a 4-tuple whose 4th component duplicates the 3rd
(`modified_content_string`); `warns` additionally exposes the
`mismatches_warnings` list and `outLines` the `new_lines` list from which
`modified` is joined. -/
structure SmartResult where
  successMsg : Option String
  warningMsg : Option String
  modified : Option String
  warns : List String
  outLines : List String
  deriving DecidableEq, Repr

/-- The result statuses of the specification: `output` is absent exactly on
`error`; `warning` means warnings were collected. -/
inductive Status where
  | success
  | warning
  | error
  deriving DecidableEq, Repr

/-- Status classification of a result, per the specification's mapping of
the returned tuple. -/
def SmartResult.status (r : SmartResult) : Status :=
  if r.modified = none then Status.error
  else if r.warns = [] then Status.success
  else Status.warning

/-- `apply_diff_logic_smart(diff_content, original_content, filename)` from
`src/app.py` (lines 16-122).  The `filename` parameter and the
`target_filename` bookkeeping only feed reporting variables that are never
read by the returned tuple, so they do not appear in the result. -/
def apply_diff_logic_smart (diff_content original_content : String) : SmartResult :=
  let diffLines := splitLines (pyStrip diff_content)
  if diffLines.isEmpty then
    ⟨none, some "Error: Empty diff content provided.", none, [], []⟩
  else
    let hunks := diffHunks diffLines
    let originalLines := if original_content = "" then [] else splitLinesKeep original_content
    match applyHunksLoop originalLines hunks ⟨0, [], []⟩ with
    | Except.error msg => ⟨none, some msg, none, [], []⟩
    | Except.ok s =>
      let modified := String.join s.out
      if s.warns = [] then
        ⟨some "Successfully applied patch.", none, some modified, s.warns, s.out⟩
      else
        ⟨some "Patch applied with warnings.",
         some ("Patch applied with potential issues:" ++ "\n" ++ String.intercalate "\n" s.warns),
         some modified, s.warns, s.out⟩

/-! ### Basic lemmas about the line-kind tests -/

/-- A line passing the hunk-header regex starts with `@@` and therefore not
with `+++ b/`. -/
theorem parseHunkHeader_shape (s : String) (p : ParsedHeader)
    (h : parseHunkHeader s = some p) :
    pyStartsWith s "@@" = true ∧ pyStartsWith s "+++ b/" = false := by
  rcases s with ⟨data⟩
  match data with
  | '@' :: '@' :: ' ' :: '-' :: rest =>
    constructor
    · simp [pyStartsWith]
    · simp [pyStartsWith]
  | [] => simp [parseHunkHeader] at h
  | [c] => simp [parseHunkHeader] at h
  | [c, d] => simp [parseHunkHeader] at h
  | [c, d, e] => simp [parseHunkHeader] at h
  | c :: d :: e :: f :: rest =>
    by_cases hc : c = '@' <;> by_cases hd : d = '@' <;> by_cases he : e = ' ' <;>
      by_cases hf : f = '-' <;> subst_vars <;>
      simp_all [parseHunkHeader, pyStartsWith]

/-- A line starting with `-` starts with neither `' '` nor `+`. -/
theorem dash_line_kind (line : String) (h : pyStartsWith line "-" = true) :
    pyStartsWith line " " = false ∧ pyStartsWith line "+" = false := by
  rcases line with ⟨data⟩
  cases data with
  | nil => simp [pyStartsWith] at h
  | cons c cs =>
    simp [pyStartsWith] at h ⊢
    subst h
    constructor <;> decide

/-! ### Claim theorems -/

/-- C1: the claim says that for a diff containing a malformed hunk header,
`apply_diff_logic_smart` skips only that hunk, continues with the rest, and
still returns a result with output present.  The code instead returns
immediately with no output (its message even says "Skipping hunk." while it
aborts the whole request): at a diff whose second header is malformed, the
result has `modified = none`, i.e. status Error. -/
theorem C1_malformed_header_aborts :
    (apply_diff_logic_smart "@@ -1 +1 @@\n a\n@@ not-a-header @@\n+x" "a\n").modified = none ∧
    (apply_diff_logic_smart "@@ -1 +1 @@\n a\n@@ not-a-header @@\n+x" "a\n").status =
      Status.error ∧
    (apply_diff_logic_smart "@@ -1 +1 @@\n a\n@@ not-a-header @@\n+x" "a\n").warningMsg =
      some ("Warning: Invalid hunk header: " ++ sglq ++ "@@ not-a-header @@" ++ sglq ++
        ". Skipping hunk.") := by
  decide

/-- C2: the claim says remaining original lines are flushed exactly once,
after the last hunk.  In the code the flush loop (whose own comment reads
"Copy any remaining lines after the last hunk") is indented inside the
per-hunk loop, so it runs after every hunk: on a two-hunk diff touching
lines 1 and 3 of `"a\nb\nc\n"`, lines `b` and `c` are flushed already after
the first hunk, the second hunk then runs with the cursor at the end and
mis-applies its context line, and the output duplicates `c`.  Flushing only
after the last hunk would give `"a\nb\nc\n"` with no warnings. -/
theorem C2_flush_after_every_hunk :
    (apply_diff_logic_smart "@@ -1,1 +1,1 @@\n a\n@@ -3,1 +3,1 @@\n c" "a\nb\nc\n").modified =
      some "a\nb\nc\nc\n" ∧
    (apply_diff_logic_smart "@@ -1,1 +1,1 @@\n a\n@@ -3,1 +3,1 @@\n c" "a\nb\nc\n").warns.length
      = 1 := by
  decide

/-- C3: the claim says a non-empty diff with no `@@` header returns the
original content unchanged with status Success.  In the code the flush loop
sits inside the per-hunk loop, so with zero hunks no original line is ever
copied: the output is the empty string, not the original content (the
status is indeed Success). -/
theorem C3_headerless_diff_loses_content :
    (apply_diff_logic_smart "hello" "a\n").modified = some "" ∧
    (apply_diff_logic_smart "hello" "a\n").status = Status.success := by
  decide

/-- C4: for a context line, if the cursor is in bounds and the matcher
accepts the pair, the original line at the cursor is emitted and the cursor
advances by one; otherwise exactly one warning is recorded, the diff's
context text is emitted as a new output line, and the cursor does not
advance. -/
theorem C4_context_line (orig : List String) (startM1 : Int) (k : Nat) (line : String)
    (s : AppState) (hctx : pyStartsWith line " " = true) :
    ((s.idx < orig.length ∧
        is_line_similar (rstripNL (orig.getD s.idx "")) (rstripNL (line.drop 1)) = true) →
      processDiffLine orig startM1 k line s =
        { s with out := s.out ++ [orig.getD s.idx ""], idx := s.idx + 1 }) ∧
    (¬ (s.idx < orig.length ∧
        is_line_similar (rstripNL (orig.getD s.idx "")) (rstripNL (line.drop 1)) = true) →
      processDiffLine orig startM1 k line s =
        { s with warns := s.warns ++ [ctxWarnMsg line startM1 k],
                 out := s.out ++ [line.drop 1 ++ "\n"] }) := by
  constructor <;> intro h
  · simp only [processDiffLine, hctx, if_true]
    rw [if_pos h]
  · simp only [processDiffLine, hctx, if_true]
    rw [if_neg h]

/-- Witness for C4 at a concrete matching and a concrete mismatching
context line. -/
theorem C4_context_line_witness :
    (pyStartsWith " a" " " = true ∧
      processDiffLine ["a\n", "b\n"] 0 0 " a" ⟨0, [], []⟩ = ⟨1, ["a\n"], []⟩) ∧
    (pyStartsWith " z" " " = true ∧
      processDiffLine ["a\n", "b\n"] 0 1 " z" ⟨0, [], []⟩ =
        ⟨0, ["z\n"], [ctxWarnMsg " z" 0 1]⟩) := by
  refine ⟨⟨by decide, ?_⟩, ⟨by decide, ?_⟩⟩
  · have h := (C4_context_line ["a\n", "b\n"] 0 0 " a" ⟨0, [], []⟩ (by decide)).1
      (by constructor <;> decide)
    simpa using h
  · have h := (C4_context_line ["a\n", "b\n"] 0 1 " z" ⟨0, [], []⟩ (by decide)).2
      (by decide)
    simpa using h

/-- C5: for a removal line, the cursor always advances by exactly one, no
output line is emitted, and a warning is recorded iff the cursor is in
bounds and the original line at the cursor differs from the removal text
under exact comparison after stripping trailing newlines — the fuzzy
matcher is not consulted at all. -/
theorem C5_removal_line (orig : List String) (startM1 : Int) (k : Nat) (line : String)
    (s : AppState) (hrem : pyStartsWith line "-" = true) :
    processDiffLine orig startM1 k line s =
      { s with idx := s.idx + 1,
               warns := s.warns ++
                 (if s.idx < orig.length ∧
                      rstripNL (orig.getD s.idx "") ≠ rstripNL (line.drop 1)
                  then [remWarnMsg line startM1 k] else []) } := by
  obtain ⟨hsp, hpl⟩ := dash_line_kind line hrem
  by_cases h : s.idx < orig.length ∧ rstripNL (orig.getD s.idx "") ≠ rstripNL (line.drop 1)
  · simp only [processDiffLine, hsp, hpl, hrem, if_true, if_false, Bool.false_eq_true]
    rw [if_pos h, if_pos h]
  · simp only [processDiffLine, hsp, hpl, hrem, if_true, if_false, Bool.false_eq_true]
    rw [if_neg h, if_neg h, List.append_nil]

/-- Witness for C5 at a concrete mismatching removal line. -/
theorem C5_removal_line_witness :
    pyStartsWith "-z" "-" = true ∧
    processDiffLine ["a\n"] 0 0 "-z" ⟨0, [], []⟩ = ⟨1, [], [remWarnMsg "-z" 0 0]⟩ := by
  refine ⟨by decide, ?_⟩
  have h := C5_removal_line ["a\n"] 0 0 "-z" ⟨0, [], []⟩ (by decide)
  simpa using h

/-- For nonempty sequences, the `ratio() >= 0.8` test on `smRatio` is the
cross-multiplied natural-number comparison used by `is_line_similar`. -/
theorem ratio_ge_iff (x y : List Char) (hx : x ≠ []) (_hy : y ≠ []) :
    smRatio x y ≥ ratio_threshold ↔
      5 * (2 * matchTotal x y) ≥ 4 * (x.length + y.length) := by
  have hx' : 0 < x.length := List.length_pos.mpr hx
  have hT : x.length + y.length ≠ 0 := by omega
  have hTQ : (0 : ℚ) < (x.length : ℚ) + (y.length : ℚ) := by
    have : (0 : ℚ) < (x.length : ℚ) := by exact_mod_cast hx'
    have : (0 : ℚ) ≤ (y.length : ℚ) := by positivity
    linarith
  rw [smRatio, if_neg hT, ratio_threshold, ge_iff_le, ge_iff_le,
    div_le_div_iff₀ (by norm_num) hTQ]
  constructor
  · intro h
    have h2 : ((4 * (x.length + y.length) : ℕ) : ℚ) ≤
        ((5 * (2 * matchTotal x y) : ℕ) : ℚ) := by
      push_cast
      linarith
    exact_mod_cast h2
  · intro h
    have h2 : ((4 * (x.length + y.length) : ℕ) : ℚ) ≤
        ((5 * (2 * matchTotal x y) : ℕ) : ℚ) := by exact_mod_cast h
    push_cast at h2
    linarith

/-- C8: `is_line_similar` matches when both strings strip to empty, does
not match when exactly one strips to empty, and otherwise matches iff the
sequence-matcher ratio `2*M/(len a + len b)` on the stripped strings
reaches the `0.8` threshold. -/
theorem C8_similarity_decision (a b : String) :
    is_line_similar a b = true ↔
      ((pyStrip a).data = [] ∧ (pyStrip b).data = []) ∨
      ((pyStrip a).data ≠ [] ∧ (pyStrip b).data ≠ [] ∧
        smRatio (pyStrip a).data (pyStrip b).data ≥ ratio_threshold) := by
  unfold is_line_similar
  by_cases ha : (pyStrip a).data = [] <;> by_cases hb : (pyStrip b).data = []
  · simp [ha, hb]
  · simp [ha, hb]
  · simp [ha, hb]
  · rw [ratio_ge_iff _ _ ha hb]
    simp only [List.isEmpty_eq_true, ha, hb, if_false, Bool.and_eq_true, Bool.or_eq_true,
      decide_eq_true_eq]
    simp [ha, hb, ge_iff_le]

/-- C9 amended: the whitespace-only cases of `is_line_similar` are
symmetric, and the ratio test is symmetric whenever the greedy
matched-character total of the sequence matcher agrees for the two
argument orders (the only source of asymmetry). -/
theorem C9_symmetric_of_matchTotal_symm (a b : String)
    (h : matchTotal (pyStrip a).data (pyStrip b).data =
         matchTotal (pyStrip b).data (pyStrip a).data) :
    is_line_similar a b = is_line_similar b a := by
  unfold is_line_similar
  rw [h, Bool.and_comm, Bool.or_comm, Nat.add_comm ((pyStrip a).data.length)]

/-- Witness for the amended C9 at the concrete pair `"ab"`, `"ba"`, whose
matched totals agree. -/
theorem C9_symmetric_of_matchTotal_symm_witness :
    (matchTotal (pyStrip "ab").data (pyStrip "ba").data =
      matchTotal (pyStrip "ba").data (pyStrip "ab").data) ∧
    is_line_similar "ab" "ba" = is_line_similar "ba" "ab" :=
  ⟨by decide, C9_symmetric_of_matchTotal_symm "ab" "ba" (by decide)⟩

/-- How the cursor moves on one diff line: +1 on a matching context line or
on any removal line, unchanged otherwise.  (Specification-side mirror of
`processDiffLine`, independent of the hunk-start used only in messages.) -/
def stepIdx (orig : List String) (line : String) (idx : Nat) : Nat :=
  if pyStartsWith line " " then
    if idx < orig.length ∧
        is_line_similar (rstripNL (orig.getD idx "")) (rstripNL (line.drop 1)) = true
    then idx + 1 else idx
  else if pyStartsWith line "+" then idx
  else if pyStartsWith line "-" then idx + 1
  else idx

/-- Whether one diff line is a mismatching line (1) or not (0): a context
line failing the fuzzy match or out of bounds, or an in-bounds removal line
differing exactly. -/
def stepMism (orig : List String) (line : String) (idx : Nat) : Nat :=
  if pyStartsWith line " " then
    if idx < orig.length ∧
        is_line_similar (rstripNL (orig.getD idx "")) (rstripNL (line.drop 1)) = true
    then 0 else 1
  else if pyStartsWith line "+" then 0
  else if pyStartsWith line "-" then
    if idx < orig.length ∧ rstripNL (orig.getD idx "") ≠ rstripNL (line.drop 1) then 1 else 0
  else 0

/-- Number of mismatching lines of a hunk body (first component) and the
final cursor (second component), starting from a given cursor. -/
def mismLines (orig : List String) : List String → Nat → Nat × Nat
  | [], idx => (0, idx)
  | l :: ls, idx =>
    let r := mismLines orig ls (stepIdx orig l idx)
    (stepMism orig l idx + r.1, r.2)

/-- Number of mismatching lines over a list of hunks, threading the cursor
through copy-through, body, and per-hunk flush (0 on a malformed header,
where the real loop aborts). -/
def mismHunks (orig : List String) : List RawHunk → Nat → Nat
  | [], _ => 0
  | h :: hs, idx =>
    match parseHunkHeader h.header with
    | none => 0
    | some ph =>
      let idx1 := max idx (min (Int.toNat ((ph.origStart : Int) - 1)) orig.length)
      let r := mismLines orig h.lines idx1
      r.1 + mismHunks orig hs (max r.2 orig.length)

/-- The cursor after one diff line is `stepIdx`. -/
theorem processDiffLine_idx (orig : List String) (startM1 : Int) (k : Nat) (line : String)
    (s : AppState) :
    (processDiffLine orig startM1 k line s).idx = stepIdx orig line s.idx := by
  unfold processDiffLine stepIdx
  split
  · split <;> rfl
  · split
    · rfl
    · split
      · split <;> rfl
      · rfl

/-- Exactly `stepMism` warnings are appended by one diff line: one per
mismatching line, none otherwise. -/
theorem processDiffLine_warns_len (orig : List String) (startM1 : Int) (k : Nat) (line : String)
    (s : AppState) :
    (processDiffLine orig startM1 k line s).warns.length =
      s.warns.length + stepMism orig line s.idx := by
  unfold processDiffLine stepMism
  split
  · split <;> simp
  · split
    · simp
    · split
      · split <;> simp
      · simp

/-- Cursor and warning count of the inner hunk-line loop, via `mismLines`. -/
theorem processHunkLines_spec (orig : List String) (startM1 : Int) :
    ∀ (ls : List String) (k : Nat) (s : AppState),
      (processHunkLines orig startM1 k ls s).idx = (mismLines orig ls s.idx).2 ∧
      (processHunkLines orig startM1 k ls s).warns.length =
        s.warns.length + (mismLines orig ls s.idx).1
  | [], k, s => by
    simp [processHunkLines, mismLines]
  | l :: ls, k, s => by
    have ih := processHunkLines_spec orig startM1 ls (k + 1) (processDiffLine orig startM1 k l s)
    simp only [processHunkLines, mismLines]
    refine ⟨?_, ?_⟩
    · rw [ih.1, processDiffLine_idx]
    · rw [ih.2, processDiffLine_warns_len, processDiffLine_idx]
      omega

/-- Cursor and warning count of one whole hunk application. -/
theorem applyHunk_spec (orig : List String) (ph : ParsedHeader) (lines : List String)
    (s : AppState) :
    (applyHunk orig ph lines s).idx =
      max (mismLines orig lines
        (max s.idx (min (Int.toNat ((ph.origStart : Int) - 1)) orig.length))).2 orig.length ∧
    (applyHunk orig ph lines s).warns.length =
      s.warns.length + (mismLines orig lines
        (max s.idx (min (Int.toNat ((ph.origStart : Int) - 1)) orig.length))).1 := by
  have h := processHunkLines_spec orig ((ph.origStart : Int) - 1) lines 0
    (copyBefore orig ((ph.origStart : Int) - 1) s)
  unfold applyHunk flushRemaining
  refine ⟨?_, ?_⟩
  · simp only [h.1]
    rfl
  · simp only [h.2]
    rfl

/-- With all headers well formed, the per-hunk loop succeeds and collects
exactly one warning per mismatching line (`mismHunks`). -/
theorem applyHunksLoop_spec (orig : List String) :
    ∀ (hs : List RawHunk) (s : AppState),
      (∀ h ∈ hs, (parseHunkHeader h.header).isSome) →
      ∃ s', applyHunksLoop orig hs s = Except.ok s' ∧
        s'.warns.length = s.warns.length + mismHunks orig hs s.idx
  | [], s, _ => ⟨s, rfl, by simp [mismHunks]⟩
  | hk :: hs, s, hall => by
    match hp : parseHunkHeader hk.header with
    | none =>
      exact absurd (hall hk (List.mem_cons_self hk hs)) (by simp [hp])
    | some ph =>
      obtain ⟨s', hok, hlen⟩ := applyHunksLoop_spec orig hs (applyHunk orig ph hk.lines s)
        (fun h hm => hall h (List.mem_cons_of_mem hk hm))
      refine ⟨s', ?_, ?_⟩
      · rw [applyHunksLoop, hp]
        exact hok
      · rw [hlen, (applyHunk_spec orig ph hk.lines s).2, (applyHunk_spec orig ph hk.lines s).1]
        simp only [mismHunks, hp]
        omega

/-- C6: whenever the diff is non-empty and every hunk header parses, the
result always carries an output (never status Error); the status is
Success iff there are no warnings and Warning iff there are some; and the
number of collected warnings equals the number of mismatching context and
removal lines — exactly one warning per mismatching line. -/
theorem C6_mismatches_warn_not_error (d o : String)
    (hne : splitLines (pyStrip d) ≠ [])
    (hall : ∀ h ∈ diffHunks (splitLines (pyStrip d)), (parseHunkHeader h.header).isSome) :
    (apply_diff_logic_smart d o).modified.isSome = true ∧
    (apply_diff_logic_smart d o).status ≠ Status.error ∧
    ((apply_diff_logic_smart d o).warns = [] ↔
      (apply_diff_logic_smart d o).status = Status.success) ∧
    ((apply_diff_logic_smart d o).warns ≠ [] ↔
      (apply_diff_logic_smart d o).status = Status.warning) ∧
    (apply_diff_logic_smart d o).warns.length =
      mismHunks (if o = "" then [] else splitLinesKeep o)
        (diffHunks (splitLines (pyStrip d))) 0 := by
  obtain ⟨s', hok, hlen⟩ := applyHunksLoop_spec (if o = "" then [] else splitLinesKeep o)
    (diffHunks (splitLines (pyStrip d))) ⟨0, [], []⟩ hall
  have hde : (splitLines (pyStrip d)).isEmpty = false := by
    simpa [List.isEmpty_iff] using hne
  unfold apply_diff_logic_smart
  simp only [hde, Bool.false_eq_true, if_false]
  rw [hok]
  dsimp only
  by_cases hw : s'.warns = []
  · simp only [if_pos hw]
    have h0 : mismHunks (if o = "" then [] else splitLinesKeep o)
        (diffHunks (splitLines (pyStrip d))) 0 = 0 := by
      simpa [hw] using hlen.symm
    simp [SmartResult.status, hw, h0]
  · simp only [if_neg hw]
    simp [SmartResult.status, hw, hlen]

/-- Witness for C6 at a one-hunk diff whose context line mismatches. -/
theorem C6_mismatches_warn_not_error_witness :
    (splitLines (pyStrip "@@ -1 +1 @@\n x") ≠ [] ∧
      ∀ h ∈ diffHunks (splitLines (pyStrip "@@ -1 +1 @@\n x")),
        (parseHunkHeader h.header).isSome) ∧
    ((apply_diff_logic_smart "@@ -1 +1 @@\n x" "y\n").modified.isSome = true ∧
     (apply_diff_logic_smart "@@ -1 +1 @@\n x" "y\n").status ≠ Status.error ∧
     ((apply_diff_logic_smart "@@ -1 +1 @@\n x" "y\n").warns = [] ↔
       (apply_diff_logic_smart "@@ -1 +1 @@\n x" "y\n").status = Status.success) ∧
     ((apply_diff_logic_smart "@@ -1 +1 @@\n x" "y\n").warns ≠ [] ↔
       (apply_diff_logic_smart "@@ -1 +1 @@\n x" "y\n").status = Status.warning) ∧
     (apply_diff_logic_smart "@@ -1 +1 @@\n x" "y\n").warns.length =
       mismHunks (if ("y\n" : String) = "" then [] else splitLinesKeep "y\n")
         (diffHunks (splitLines (pyStrip "@@ -1 +1 @@\n x"))) 0) :=
  ⟨⟨by decide, by decide⟩,
    C6_mismatches_warn_not_error "@@ -1 +1 @@\n x" "y\n" (by decide) (by decide)⟩

/-- Whether a string's last character is a newline. -/
def endsNL (s : String) : Bool :=
  decide (s.data.getLast? = some '\n')

/-- String append acts as list append on the character data. -/
theorem str_data_append (x y : String) : (x ++ y).data = x.data ++ y.data := by
  cases x; cases y; rfl

/-- Appending a newline yields a newline-terminated string. -/
theorem endsNL_append_newline (x : String) : endsNL (x ++ "\n") = true := by
  have hd : (x ++ "\n").data = x.data ++ ['\n'] := str_data_append x "\n"
  simp [endsNL, hd]

/-- Invariant of the application loop: every output line so far either ends
in a newline or was copied verbatim from the original lines. -/
def GoodOut (orig : List String) (s : AppState) : Prop :=
  ∀ l ∈ s.out, endsNL l = true ∨ l ∈ orig

/-- `processDiffLine` preserves the output-line invariant: it only appends
original lines (context match) or `... ++ "\n"` lines (context mismatch and
additions). -/
theorem processDiffLine_goodOut (orig : List String) (startM1 : Int) (k : Nat) (line : String)
    (s : AppState) (h : GoodOut orig s) :
    GoodOut orig (processDiffLine orig startM1 k line s) := by
  unfold processDiffLine
  split
  · split
    · rename_i hc
      intro l hl
      rcases List.mem_append.mp hl with hl | hl
      · exact h l hl
      · right
        rw [List.mem_singleton.mp hl, List.getD_eq_getElem orig "" hc.1]
        exact List.getElem_mem hc.1
    · intro l hl
      rcases List.mem_append.mp hl with hl | hl
      · exact h l hl
      · left
        rw [List.mem_singleton.mp hl]
        exact endsNL_append_newline _
  · split
    · intro l hl
      rcases List.mem_append.mp hl with hl | hl
      · exact h l hl
      · left
        rw [List.mem_singleton.mp hl]
        exact endsNL_append_newline _
    · split
      · by_cases hrm : s.idx < orig.length ∧ rstripNL (orig.getD s.idx "") ≠ rstripNL (line.drop 1)
        · simp only [if_pos hrm]
          intro l hl
          exact h l hl
        · simp only [if_neg hrm]
          intro l hl
          exact h l hl
      · exact h

/-- `copyBefore` preserves the output-line invariant: it only copies
original lines. -/
theorem copyBefore_goodOut (orig : List String) (startM1 : Int) (s : AppState)
    (h : GoodOut orig s) : GoodOut orig (copyBefore orig startM1 s) := by
  intro l hl
  rcases List.mem_append.mp hl with hl | hl
  · exact h l hl
  · exact Or.inr (List.drop_subset _ _ (List.take_subset _ _ hl))

/-- `flushRemaining` preserves the output-line invariant. -/
theorem flushRemaining_goodOut (orig : List String) (s : AppState)
    (h : GoodOut orig s) : GoodOut orig (flushRemaining orig s) := by
  intro l hl
  rcases List.mem_append.mp hl with hl | hl
  · exact h l hl
  · exact Or.inr (List.drop_subset _ _ hl)

/-- The inner hunk-line loop preserves the output-line invariant. -/
theorem processHunkLines_goodOut (orig : List String) (startM1 : Int) :
    ∀ (ls : List String) (k : Nat) (s : AppState),
      GoodOut orig s → GoodOut orig (processHunkLines orig startM1 k ls s)
  | [], _, _, h => h
  | l :: ls, k, s, h =>
    processHunkLines_goodOut orig startM1 ls (k + 1) _
      (processDiffLine_goodOut orig startM1 k l s h)

/-- One whole hunk preserves the output-line invariant. -/
theorem applyHunk_goodOut (orig : List String) (ph : ParsedHeader) (lines : List String)
    (s : AppState) (h : GoodOut orig s) : GoodOut orig (applyHunk orig ph lines s) :=
  flushRemaining_goodOut _ _
    (processHunkLines_goodOut _ _ lines 0 _ (copyBefore_goodOut _ _ _ h))

/-- The per-hunk loop preserves the output-line invariant on success. -/
theorem applyHunksLoop_goodOut (orig : List String) :
    ∀ (hs : List RawHunk) (s s' : AppState),
      applyHunksLoop orig hs s = Except.ok s' → GoodOut orig s → GoodOut orig s'
  | [], s, s', heq, h => by
    rw [show s = s' from by simpa [applyHunksLoop] using heq] at h
    exact h
  | hk :: hs, s, s', heq, h => by
    rw [applyHunksLoop] at heq
    match hp : parseHunkHeader hk.header with
    | none => rw [hp] at heq; exact absurd heq (by simp)
    | some ph =>
      rw [hp] at heq
      exact applyHunksLoop_goodOut orig hs _ s' heq (applyHunk_goodOut orig ph hk.lines s h)

/-- C7 counterexample: the claim says every emitted line is terminated by a
line break, including lines copied from an original whose last line has no
trailing terminator.  Patching the one-line original `"a"` (no trailing
newline) with a hunk that only positions the cursor past it copies the line
as-is: the single emitted line, and hence the output, is `"a"` with no line
break. -/
theorem C7_unterminated_line_counterexample :
    (apply_diff_logic_smart "@@ -2 +2 @@" "a").outLines = ["a"] ∧
    (apply_diff_logic_smart "@@ -2 +2 @@" "a").modified = some "a" ∧
    endsNL "a" = false := by
  decide

/-- C7 amended: whenever output is present it is the concatenation of all
emitted lines in emission order, and every emitted line either is
terminated by a line break or is a verbatim copy of one of the original
content's (terminator-preserving) lines — so only a final original line
lacking its terminator can be emitted unterminated. -/
theorem C7_output_is_join_of_emitted (d o : String)
    (h : (apply_diff_logic_smart d o).modified.isSome = true) :
    (apply_diff_logic_smart d o).modified =
      some (String.join (apply_diff_logic_smart d o).outLines) ∧
    ∀ l ∈ (apply_diff_logic_smart d o).outLines,
      endsNL l = true ∨ l ∈ splitLinesKeep o := by
  unfold apply_diff_logic_smart at h ⊢
  by_cases hde : (splitLines (pyStrip d)).isEmpty
  · simp [hde] at h
  · simp only [hde, if_false, Bool.false_eq_true] at h ⊢
    have hsub : (if o = "" then [] else splitLinesKeep o) ⊆ splitLinesKeep o := by
      split
      · intro l hl; exact absurd hl (List.not_mem_nil l)
      · exact fun l hl => hl
    match heq : applyHunksLoop (if o = "" then [] else splitLinesKeep o)
        (diffHunks (splitLines (pyStrip d))) ⟨0, [], []⟩ with
    | Except.error msg => rw [heq] at h; simp at h
    | Except.ok s =>
      have hgood : GoodOut (if o = "" then [] else splitLinesKeep o) s :=
        applyHunksLoop_goodOut _ _ _ _ heq (by intro l hl; exact absurd hl (List.not_mem_nil l))
      dsimp only
      split <;>
        exact ⟨rfl, fun l hl => (hgood l hl).imp id (fun hm => hsub hm)⟩

/-- Witness for the amended C7 at a concrete addition-only diff. -/
theorem C7_output_is_join_of_emitted_witness :
    ((apply_diff_logic_smart "@@ -1 +1 @@\n+x" "").modified.isSome = true) ∧
    ((apply_diff_logic_smart "@@ -1 +1 @@\n+x" "").modified =
      some (String.join (apply_diff_logic_smart "@@ -1 +1 @@\n+x" "").outLines) ∧
    ∀ l ∈ (apply_diff_logic_smart "@@ -1 +1 @@\n+x" "").outLines,
      endsNL l = true ∨ l ∈ splitLinesKeep "") :=
  ⟨by decide, C7_output_is_join_of_emitted "@@ -1 +1 @@\n+x" "" (by decide)⟩

/-- Two diff lines that are interchangeable for C10: equal, or both
well-formed hunk headers agreeing on the two start numbers (the count
fields may differ). -/
def lineCompat (l1 l2 : String) : Prop :=
  l1 = l2 ∨ ∃ p1 p2, parseHunkHeader l1 = some p1 ∧ parseHunkHeader l2 = some p2 ∧
    p1.origStart = p2.origStart ∧ p1.modStart = p2.modStart

/-- Two raw hunks that are interchangeable for C10: same body lines and
`lineCompat`-related headers. -/
def hunkCompat (h1 h2 : RawHunk) : Prop :=
  h1.lines = h2.lines ∧ lineCompat h1.header h2.header

/-- Relation between open-hunk slots of two parser states. -/
def optHunkCompat : Option RawHunk → Option RawHunk → Prop
  | none, none => True
  | some h1, some h2 => hunkCompat h1 h2
  | _, _ => False

/-- Relation between two parser accumulators: pointwise-compatible closed
hunks and compatible open slots (the recorded filename is irrelevant to
the returned values). -/
def accCompat (a1 a2 : ParseAcc) : Prop :=
  List.Forall₂ hunkCompat a1.hunks a2.hunks ∧ optHunkCompat a1.current a2.current

/-- Closing the open slot preserves hunk compatibility. -/
theorem closeSlot_compat (c1 c2 : Option RawHunk) (h : optHunkCompat c1 c2) :
    List.Forall₂ hunkCompat (closeHunk c1) (closeHunk c2) := by
  match c1, c2 with
  | none, none => exact List.Forall₂.nil
  | some h1, some h2 => exact List.Forall₂.cons h (List.Forall₂.nil)
  | none, some h2 => exact absurd h (by simp [optHunkCompat])
  | some h1, none => exact absurd h (by simp [optHunkCompat])

/-- One parsing step maps compatible accumulators and compatible lines to
compatible accumulators. -/
theorem parseStep_compat (a1 a2 : ParseAcc) (l1 l2 : String)
    (ha : accCompat a1 a2) (hl : lineCompat l1 l2) :
    accCompat (parseStep a1 l1) (parseStep a2 l2) := by
  rcases hl with rfl | ⟨p1, p2, hp1, hp2, hso, hsm⟩
  · unfold parseStep
    by_cases hb : pyStartsWith l1 "+++ b/" = true
    · simp only [hb, if_true]
      exact ⟨ha.1, ha.2⟩
    · simp only [hb, Bool.false_eq_true, if_false]
      by_cases hat : pyStartsWith l1 "@@" = true
      · simp only [hat, if_true]
        exact ⟨List.rel_append ha.1 (closeSlot_compat _ _ ha.2),
          ⟨rfl, Or.inl rfl⟩⟩
      · simp only [hat, Bool.false_eq_true, if_false]
        match hc1 : a1.current, hc2 : a2.current with
        | none, none =>
          dsimp only
          exact ha
        | some h1, some h2 =>
          have hcc : hunkCompat h1 h2 := by
            have h := ha.2
            rw [hc1, hc2] at h
            exact h
          dsimp only
          exact ⟨ha.1, ⟨by dsimp only; rw [hcc.1], hcc.2⟩⟩
        | none, some h2 =>
          have h := ha.2
          rw [hc1, hc2] at h
          exact absurd h (by simp [optHunkCompat])
        | some h1, none =>
          have h := ha.2
          rw [hc1, hc2] at h
          exact absurd h (by simp [optHunkCompat])
  · have hsh1 := parseHunkHeader_shape l1 p1 hp1
    have hsh2 := parseHunkHeader_shape l2 p2 hp2
    unfold parseStep
    simp only [hsh1.1, hsh1.2, hsh2.1, hsh2.2, Bool.false_eq_true, if_false, if_true]
    exact ⟨List.rel_append ha.1 (closeSlot_compat _ _ ha.2),
      ⟨rfl, Or.inr ⟨p1, p2, hp1, hp2, hso, hsm⟩⟩⟩

/-- The parsing fold maps compatible line lists to compatible
accumulators. -/
theorem foldl_parseStep_compat :
    ∀ (ls1 ls2 : List String), List.Forall₂ lineCompat ls1 ls2 →
      ∀ (a1 a2 : ParseAcc), accCompat a1 a2 →
        accCompat (ls1.foldl parseStep a1) (ls2.foldl parseStep a2)
  | _, _, List.Forall₂.nil, _, _, ha => ha
  | _, _, List.Forall₂.cons hl hrest, a1, a2, ha =>
    foldl_parseStep_compat _ _ hrest _ _ (parseStep_compat a1 a2 _ _ ha hl)

/-- Compatible diff line lists parse to pointwise-compatible hunk lists. -/
theorem diffHunks_compat (ls1 ls2 : List String)
    (h : List.Forall₂ lineCompat ls1 ls2) :
    List.Forall₂ hunkCompat (diffHunks ls1) (diffHunks ls2) := by
  have hacc := foldl_parseStep_compat ls1 ls2 h ⟨none, [], none⟩ ⟨none, [], none⟩
    ⟨List.Forall₂.nil, trivial⟩
  exact List.rel_append hacc.1 (closeSlot_compat _ _ hacc.2)

/-- Hunk application depends on the parsed header only through
`origStart`. -/
theorem applyHunk_congr (orig : List String) (ph1 ph2 : ParsedHeader) (lines : List String)
    (s : AppState) (hs : ph1.origStart = ph2.origStart) :
    applyHunk orig ph1 lines s = applyHunk orig ph2 lines s := by
  unfold applyHunk
  rw [hs]

/-- The application loop returns identical results on pointwise-compatible
hunk lists. -/
theorem applyHunksLoop_congr (orig : List String) :
    ∀ (hs1 hs2 : List RawHunk), List.Forall₂ hunkCompat hs1 hs2 →
      ∀ s, applyHunksLoop orig hs1 s = applyHunksLoop orig hs2 s
  | _, _, List.Forall₂.nil, _ => rfl
  | h1 :: t1, h2 :: t2, List.Forall₂.cons hh hrest, s => by
    rcases hh with ⟨hlines, hl | ⟨p1, p2, hp1, hp2, hso, _⟩⟩
    · unfold applyHunksLoop
      rw [hl, hlines]
      match hp : parseHunkHeader h2.header with
      | none => rfl
      | some ph => exact applyHunksLoop_congr orig t1 t2 hrest _
    · unfold applyHunksLoop
      rw [hp1, hp2, hlines]
      dsimp only
      rw [applyHunk_congr orig p1 p2 h2.lines s hso]
      exact applyHunksLoop_congr orig t1 t2 hrest _

/-- C10: the result of `apply_diff_logic_smart` does not depend on the
count fields of well-formed hunk headers: two diffs whose lines are equal
except that corresponding well-formed headers may differ in their
`,<count>` values (same start numbers) produce the same result — same
output, warnings, messages and status — for every original content. -/
theorem C10_count_fields_immaterial (d1 d2 o : String)
    (h : List.Forall₂ lineCompat (splitLines (pyStrip d1)) (splitLines (pyStrip d2))) :
    apply_diff_logic_smart d1 o = apply_diff_logic_smart d2 o := by
  unfold apply_diff_logic_smart
  by_cases he : (splitLines (pyStrip d1)).isEmpty = true
  · have he2 : (splitLines (pyStrip d2)).isEmpty = true := by
      rw [List.isEmpty_iff] at he ⊢
      have := h.length_eq
      rw [he] at this
      exact List.length_eq_zero.mp this.symm
    simp only [he, he2, if_true]
  · have he2 : (splitLines (pyStrip d2)).isEmpty = false := by
      rcases hb : (splitLines (pyStrip d2)).isEmpty with _ | _
      · rfl
      · exfalso
        rw [List.isEmpty_iff] at hb
        have := h.length_eq
        rw [hb] at this
        exact he (List.isEmpty_iff.mpr (List.length_eq_zero.mp this))
    simp only [he, he2, Bool.false_eq_true, if_false]
    rw [applyHunksLoop_congr (if o = "" then [] else splitLinesKeep o) _ _
      (diffHunks_compat _ _ h) ⟨0, [], []⟩]

/-- Witness for C10 at two concrete diffs differing only in header
counts. -/
theorem C10_count_fields_immaterial_witness :
    List.Forall₂ lineCompat (splitLines (pyStrip "@@ -1,1 +1,1 @@\n+x"))
      (splitLines (pyStrip "@@ -1,7 +1,9 @@\n+x")) ∧
    apply_diff_logic_smart "@@ -1,1 +1,1 @@\n+x" "a\n" =
      apply_diff_logic_smart "@@ -1,7 +1,9 @@\n+x" "a\n" := by
  have hw : List.Forall₂ lineCompat (splitLines (pyStrip "@@ -1,1 +1,1 @@\n+x"))
      (splitLines (pyStrip "@@ -1,7 +1,9 @@\n+x")) := by
    show List.Forall₂ lineCompat ["@@ -1,1 +1,1 @@", "+x"] ["@@ -1,7 +1,9 @@", "+x"]
    refine List.Forall₂.cons ?_ (List.Forall₂.cons (Or.inl rfl) List.Forall₂.nil)
    exact Or.inr ⟨⟨1, 1, 1, 1⟩, ⟨1, 7, 1, 9⟩, by decide, by decide, rfl, rfl⟩
  exact ⟨hw, C10_count_fields_immaterial "@@ -1,1 +1,1 @@\n+x" "@@ -1,7 +1,9 @@\n+x" "a\n" hw⟩

set_option maxRecDepth 8000 in
/-- C9 counterexample: the fuzzy similarity decision is not symmetric.  The
greedy first-longest-block choice of the sequence matcher is
order-dependent: with a common 6-character head, `tide` against `diet`
matches 1 extra character one way (ratio 0.7) and 2 the other (ratio 0.8),
straddling the threshold. -/
theorem C9_not_symmetric_counterexample :
    is_line_similar "pqrstutide" "pqrstudiet" = false ∧
    is_line_similar "pqrstudiet" "pqrstutide" = true := by
  decide
